import Mathlib

set_option maxRecDepth 40000

/-!
Shallow embedding of the `n8n-nodes-naver-cloud` node
(`src/nodes/NcpApi/NcpApi.node.ts`): the NCP request-signing function
`createNcpSignature` and the per-item request construction performed by
`NcpApi.execute`.

The cryptographic primitives used by the node (`crypto.createHmac('sha256', …)`
with a base64 digest) are Node.js standard-library functions; they are embedded
here as executable reference implementations of SHA-256 (FIPS 180-4),
HMAC (RFC 2104) and standard base64 with padding (RFC 4648), validated below
against published test vectors.

Bytes are modelled as natural numbers below 256; byte strings as `List Nat`.
-/

namespace NcpNode

/-- Truncation to a 32-bit word. -/
def w32 (n : Nat) : Nat := n % 4294967296

/-- Truncation to a byte. -/
def w8 (n : Nat) : Nat := n % 256

/-- Right rotation of a 32-bit word by `s` bits. -/
def rotr32 (s x : Nat) : Nat := w32 ((x >>> s) ||| (x <<< (32 - s)))

/-- SHA-256 `Ch` function. -/
def ch (x y z : Nat) : Nat := (x &&& y) ^^^ ((x ^^^ 4294967295) &&& z)

/-- SHA-256 `Maj` function. -/
def maj (x y z : Nat) : Nat := ((x &&& y) ^^^ (x &&& z)) ^^^ (y &&& z)

/-- SHA-256 big sigma 0. -/
def bsig0 (x : Nat) : Nat := (rotr32 2 x) ^^^ (rotr32 13 x) ^^^ (rotr32 22 x)

/-- SHA-256 big sigma 1. -/
def bsig1 (x : Nat) : Nat := (rotr32 6 x) ^^^ (rotr32 11 x) ^^^ (rotr32 25 x)

/-- SHA-256 small sigma 0. -/
def ssig0 (x : Nat) : Nat := (rotr32 7 x) ^^^ (rotr32 18 x) ^^^ (x >>> 3)

/-- SHA-256 small sigma 1. -/
def ssig1 (x : Nat) : Nat := (rotr32 17 x) ^^^ (rotr32 19 x) ^^^ (x >>> 10)

/-- The 64 SHA-256 round constants. -/
def sha256K : List Nat :=
  [1116352408, 1899447441, 3049323471, 3921009573, 961987163,
   1508970993, 2453635748, 2870763221, 3624381080, 310598401,
   607225278, 1426881987, 1925078388, 2162078206, 2614888103,
   3248222580, 3835390401, 4022224774, 264347078, 604807628,
   770255983, 1249150122, 1555081692, 1996064986, 2554220882,
   2821834349, 2952996808, 3210313671, 3336571891, 3584528711,
   113926993, 338241895, 666307205, 773529912, 1294757372,
   1396182291, 1695183700, 1986661051, 2177026350, 2456956037,
   2730485921, 2820302411, 3259730800, 3345764771, 3516065817,
   3600352804, 4094571909, 275423344, 430227734, 506948616,
   659060556, 883997877, 958139571, 1322822218, 1537002063,
   1747873779, 1955562222, 2024104815, 2227730452, 2361852424,
   2428436474, 2756734187, 3204031479, 3329325298]

/-- The SHA-256 initial hash value. -/
def sha256H0 : List Nat :=
  [1779033703, 3144134277, 1013904242, 2773480762,
   1359893119, 2600822924, 528734635, 1541459225]

/-- Big-endian assembly of 4-byte groups into 32-bit words. -/
def bytesToWords : List Nat → List Nat
  | a :: b :: c :: d :: rest => (((a * 256 + b) * 256 + c) * 256 + d) :: bytesToWords rest
  | _ => []

/-- Big-endian decomposition of a 32-bit word into 4 bytes. -/
def wordBytes (x : Nat) : List Nat := [w8 (x >>> 24), w8 (x >>> 16), w8 (x >>> 8), w8 x]

/-- One extension step of the SHA-256 message schedule: appends word `W[n]`
from `W[n-2]`, `W[n-7]`, `W[n-15]`, `W[n-16]`. -/
def schedStep (w : List Nat) : List Nat :=
  let n := w.length
  w ++ [w32 (ssig1 (w.getD (n - 2) 0) + w.getD (n - 7) 0 +
             ssig0 (w.getD (n - 15) 0) + w.getD (n - 16) 0)]

/-- Iterate a function `n` times. -/
def iterN (f : α → α) : Nat → α → α
  | 0, a => a
  | n + 1, a => iterN f n (f a)

/-- The full 64-word SHA-256 message schedule from a 16-word block. -/
def sha256Schedule (block : List Nat) : List Nat := iterN schedStep 48 block

/-- One SHA-256 compression round on the working state `[a,b,c,d,e,f,g,h]`. -/
def sha256Round (st : List Nat) (kw : Nat × Nat) : List Nat :=
  match st with
  | [a, b, c, d, e, f, g, h] =>
      let t1 := w32 (h + bsig1 e + ch e f g + kw.1 + kw.2)
      let t2 := w32 (bsig0 a + maj a b c)
      [w32 (t1 + t2), a, b, c, w32 (d + t1), e, f, g]
  | other => other

/-- SHA-256 compression of one 16-word block into the chaining value. -/
def sha256Compress (hv : List Nat) (block : List Nat) : List Nat :=
  let st := (sha256K.zip (sha256Schedule block)).foldl sha256Round hv
  (hv.zip st).map (fun p => w32 (p.1 + p.2))

/-- SHA-256 padding: append `0x80`, zeros to 56 mod 64, and the 64-bit
big-endian bit length. -/
def sha256Pad (msg : List Nat) : List Nat :=
  let L := msg.length
  let k := (120 - (L + 1) % 64) % 64
  msg ++ 128 :: List.replicate k 0 ++
    (List.range 8).map (fun i => w8 ((8 * L) >>> (8 * (7 - i))))

/-- Consume the padded byte stream in 64-byte blocks, compressing each. -/
def sha256Fold (hv : List Nat) (buf : List Nat) : List Nat → List Nat
  | [] => hv
  | b :: rest =>
      if buf.length = 63 then
        sha256Fold (sha256Compress hv (bytesToWords (buf ++ [b]))) [] rest
      else
        sha256Fold hv (buf ++ [b]) rest

/-- SHA-256 of a byte string. -/
def sha256 (msg : List Nat) : List Nat :=
  ((sha256Fold sha256H0 [] (sha256Pad msg)).map wordBytes).flatten

/-- HMAC-SHA256 (RFC 2104): keys longer than the 64-byte block are hashed,
then zero-padded; inner pad `0x36`, outer pad `0x5c`. -/
def hmacSha256 (key msg : List Nat) : List Nat :=
  let k0 := if 64 < key.length then sha256 key else key
  let kp := k0 ++ List.replicate (64 - k0.length) 0
  let ipad := kp.map (fun b => b ^^^ 54)
  let opad := kp.map (fun b => b ^^^ 92)
  sha256 (opad ++ sha256 (ipad ++ msg))

/-- The standard base64 alphabet. -/
def b64Alphabet : List Char :=
  "ABCDEFGHIJKLMNOPQRSTUVWXYZabcdefghijklmnopqrstuvwxyz0123456789+/".data

/-- Character for a 6-bit group. -/
def b64Char (n : Nat) : Char := b64Alphabet.getD n 'A'

/-- Standard base64 encoding with `=` padding (RFC 4648 §4). -/
def base64Encode : List Nat → String
  | [] => ""
  | [a] =>
      String.mk [b64Char (a >>> 2), b64Char ((a &&& 3) <<< 4), '=', '=']
  | [a, b] =>
      String.mk [b64Char (a >>> 2), b64Char (((a &&& 3) <<< 4) ||| (b >>> 4)),
                 b64Char ((b &&& 15) <<< 2), '=']
  | a :: b :: c :: rest =>
      String.mk [b64Char (a >>> 2), b64Char (((a &&& 3) <<< 4) ||| (b >>> 4)),
                 b64Char (((b &&& 15) <<< 2) ||| (c >>> 6)), b64Char (c &&& 63)] ++
        base64Encode rest

/-- UTF-8 encoding of a single Unicode scalar value. -/
def utf8Char (c : Char) : List Nat :=
  let n := c.toNat
  if n < 128 then [n]
  else if n < 2048 then [192 + n / 64, 128 + n % 64]
  else if n < 65536 then [224 + n / 4096, 128 + (n / 64) % 64, 128 + n % 64]
  else [240 + n / 262144, 128 + (n / 4096) % 64, 128 + (n / 64) % 64, 128 + n % 64]

/-- UTF-8 encoding of a string, as Node's `Buffer.from(s, 'utf8')`. -/
def utf8 (s : String) : List Nat := (s.data.map utf8Char).flatten

end NcpNode

namespace NcpNode

/-!
The signer. `createNcpSignature` is the function at source lines 297-310 of
`src/nodes/NcpApi/NcpApi.node.ts`; the node's HTTP-method parameter (source
lines 387-401) offers exactly the five values modelled by `HttpMethod`.
-/

/-- The HTTP methods offered by the node's `method` options parameter. -/
inductive HttpMethod where
  | GET
  | POST
  | PUT
  | PATCH
  | DELETE
deriving DecidableEq

/-- The method value as the string interpolated into the canonical message. -/
def methodStr : HttpMethod → String
  | .GET => "GET"
  | .POST => "POST"
  | .PUT => "PUT"
  | .PATCH => "PATCH"
  | .DELETE => "DELETE"

/-- The template literal of source line 307:
`method + space + pathWithQuery + newLine + timestamp + newLine + accessKey`. -/
def canonicalMessage (method : HttpMethod)
    (pathWithQuery timestamp accessKey : String) : String :=
  let space := " "
  let newLine := "\n"
  methodStr method ++ space ++ pathWithQuery ++ newLine ++ timestamp ++ newLine ++ accessKey

/-- `createNcpSignature` (source lines 297-310):
`createHmac('sha256', secretKey).update(message).digest('base64')` over the
canonical message, with Node's default UTF-8 encoding of both strings. -/
def createNcpSignature (method : HttpMethod)
    (pathWithQuery timestamp accessKey secretKey : String) : String :=
  base64Encode (hmacSha256 (utf8 secretKey)
    (utf8 (canonicalMessage method pathWithQuery timestamp accessKey)))

/-- Specification-side canonical message, written from the spec's words:
METHOD, a single space, pathWithQuery, a literal 0x0A newline, the timestamp,
a literal 0x0A newline, the access key, with no trailing newline. -/
def specCanonicalMessage (method : HttpMethod)
    (pathWithQuery timestamp accessKey : String) : String :=
  methodStr method ++ " " ++ pathWithQuery ++ String.singleton (Char.ofNat 10) ++
    timestamp ++ String.singleton (Char.ofNat 10) ++ accessKey

/-- Specification-side signature: standard base64 (with padding) of the
HMAC-SHA256 digest, keyed with the UTF-8 bytes of the secret key, of the
UTF-8 bytes of the canonical message. -/
def specSignature (method : HttpMethod)
    (pathWithQuery timestamp accessKey secretKey : String) : String :=
  base64Encode (hmacSha256 (utf8 secretKey)
    (utf8 (specCanonicalMessage method pathWithQuery timestamp accessKey)))

/-- An ambient host world (a clock and a log), threaded explicitly to expose
that the signing function neither reads nor mutates host state. -/
structure World where
  nowMillis : Nat
  log : List String

/-- `createNcpSignature` with the ambient world passed explicitly: the
function body (source lines 303-309) performs no host access, so the result
is computed from the five arguments alone and the world passes through. -/
def createNcpSignatureW (w : World) (method : HttpMethod)
    (pathWithQuery timestamp accessKey secretKey : String) : String × World :=
  (createNcpSignature method pathWithQuery timestamp accessKey secretKey, w)

/-!
The query-string machinery of `NcpApi.execute` (source lines 494-525).
`URLSearchParams` is a WHATWG-URL-standard host object; it is embedded here at
the byte level: an entry list of (name bytes, value bytes) pairs, with the
standard `application/x-www-form-urlencoded` parser and serializer and the
standard `set` operation. Names and values are stored as UTF-8 byte lists,
so `set` compares names by byte equality, which agrees with JavaScript
string equality on well-formed UTF-8.
-/

/-- A `URLSearchParams` entry list: (name bytes, value bytes) pairs. -/
abbrev SearchParams := List (List Nat × List Nat)

/-- Value of a hex digit byte, if it is one. -/
def hexVal (b : Nat) : Option Nat :=
  if 48 ≤ b ∧ b ≤ 57 then some (b - 48)
  else if 65 ≤ b ∧ b ≤ 70 then some (b - 55)
  else if 97 ≤ b ∧ b ≤ 102 then some (b - 87)
  else none

/-- Percent-decoding: `%XY` with two hex digits becomes one byte; anything
else passes through. -/
def percentDecode : List Nat → List Nat
  | [] => []
  | 37 :: a :: b :: rest =>
      match hexVal a, hexVal b with
      | some x, some y => (16 * x + y) :: percentDecode rest
      | _, _ => 37 :: percentDecode (a :: b :: rest)
  | b :: rest => b :: percentDecode rest

/-- `0x2B` (+) decodes to `0x20` (space) in `application/x-www-form-urlencoded`. -/
def plusToSpace (bs : List Nat) : List Nat := bs.map (fun b => if b = 43 then 32 else b)

/-- Split a byte list on a separator byte, keeping empty segments. -/
def splitOnByte (sep : Nat) : List Nat → List (List Nat)
  | [] => [[]]
  | b :: rest =>
      let r := splitOnByte sep rest
      if b = sep then [] :: r
      else
        match r with
        | [] => [[b]]
        | s :: ss => (b :: s) :: ss

/-- Split a segment at its first `=` (0x3D); a segment with no `=` has an
empty value. -/
def splitFirstEq : List Nat → List Nat × List Nat
  | [] => ([], [])
  | 61 :: rest => ([], rest)
  | b :: rest =>
      let nv := splitFirstEq rest
      (b :: nv.1, nv.2)

/-- The `application/x-www-form-urlencoded` parser: split on `&`, skip empty
segments, split each at the first `=`, replace `+` by space, percent-decode. -/
def parseFormUrlencoded (bytes : List Nat) : SearchParams :=
  ((splitOnByte 38 bytes).filter (fun seg => seg ≠ [])).map (fun seg =>
    let nv := splitFirstEq seg
    (percentDecode (plusToSpace nv.1), percentDecode (plusToSpace nv.2)))

/-- `new URLSearchParams(ini)` on a string: strip one leading `?`, then parse
the UTF-8 bytes as `application/x-www-form-urlencoded`. -/
def newURLSearchParams (ini : String) : SearchParams :=
  parseFormUrlencoded
    (match utf8 ini with
     | 63 :: rest => rest
     | bs => bs)

/-- Remove every entry with the given name. -/
def spRemove (l : SearchParams) (n : List Nat) : SearchParams :=
  l.filter (fun e => !(e.1 == n))

/-- `URLSearchParams.set(name, value)`: if an entry with the name exists, the
first such entry takes the new value in place and the other entries with that
name are removed; otherwise the pair is appended. -/
def spSet : SearchParams → List Nat → List Nat → SearchParams
  | [], n, v => [(n, v)]
  | e :: rest, n, v =>
      if e.1 = n then (n, v) :: spRemove rest n
      else e :: spSet rest n v

/-- Bytes serialized without escaping by the urlencoded serializer:
`*`, `-`, `.`, `_`, digits and ASCII letters. -/
def isUrlencodedSafe (b : Nat) : Bool :=
  b = 42 || b = 45 || b = 46 || b = 95 ||
    (48 ≤ b && b ≤ 57) || (65 ≤ b && b ≤ 90) || (97 ≤ b && b ≤ 122)

/-- Uppercase hex digit character. -/
def hexDigitChar (n : Nat) : Char := "0123456789ABCDEF".data.getD n '0'

/-- Serialize one byte: space becomes `+`, safe bytes pass through, the rest
become `%XY`. -/
def encodeByte (b : Nat) : List Char :=
  if b = 32 then ['+']
  else if isUrlencodedSafe b then [Char.ofNat b]
  else ['%', hexDigitChar (b / 16), hexDigitChar (b % 16)]

/-- Serialize one entry as `name=value`. -/
def serializePair (e : List Nat × List Nat) : String :=
  String.mk (e.1.map encodeByte).flatten ++ "=" ++ String.mk (e.2.map encodeByte).flatten

/-- `URLSearchParams.toString()`: entries serialized and joined with `&`. -/
def spToString (l : SearchParams) : String :=
  String.intercalate "&" (l.map serializePair)

/-!
Per-item request construction, embedding the loop body of `NcpApi.execute`
(source lines 470-577). Host-supplied inputs — node parameters, credentials,
the `Date.now()` clock, and the transport's answer — are fields of
`ItemInput`; `JSON.parse` is a host primitive passed in as a function.
-/

/-- One entry of the `query` fixedCollection parameter. -/
structure QueryParam where
  name : String
  value : String

/-- The `ncpApi` credential pair. -/
structure Credentials where
  accessKey : String
  secretKey : String

/-- A parsed JSON value, as produced by `JSON.parse` or the HTTP helper. -/
inductive JsonVal where
  | null
  | bool (b : Bool)
  | num (n : Int)
  | str (s : String)
  | arr (elems : List JsonVal)
  | obj (fields : List (String × JsonVal))

/-- Everything the host supplies for one input item: the node parameters read
by `getNodeParameter`, the credentials (or the failure `getCredentials`
throws), the `Date.now()` value, and the transport outcome that
`this.helpers.httpRequest` would produce for this item's request. -/
structure ItemInput where
  baseUrlParam : String
  customBaseUrl : String
  rawPath : String
  method : HttpMethod
  queryParams : List QueryParam
  sendBody : Bool
  bodyJson : String
  credentials : Except String Credentials
  now : Nat
  transportResult : Except String JsonVal

/-- Errors thrown inside the per-item `try` block. -/
inductive ItemError where
  | nodeApi (message : String)
  | host (message : String)
  | jsonParse (message : String)

/-- The wrapper built by the `catch` block:
`new NodeApiError(this.getNode(), error)`. -/
structure NodeApiErrorW where
  cause : ItemError

/-- The request descriptor handed to `this.helpers.httpRequest` (source lines
554-559 plus the conditional `body` of lines 561-567). The node transmits no
query outside `url`, so `qs` — the descriptor field a request could carry
query parameters in — is empty. -/
structure RequestOptions where
  method : HttpMethod
  url : String
  xNcpApigwTimestamp : String
  xNcpIamAccessKey : String
  xNcpApigwSignatureV2 : String
  contentType : String
  qs : List (String × String)
  json : Bool
  body : Option JsonVal

/-- `Date.now().toString()` (source line 538). -/
def tsOf (it : ItemInput) : String := toString it.now

/-- The effective base URL (source lines 473-477). -/
def effBaseUrl (it : ItemInput) : String :=
  if it.baseUrlParam = "custom" then it.customBaseUrl else it.baseUrlParam

/-- JavaScript `String.prototype.includes` for a single character, over the
underlying character list. -/
def containsChar (s : String) (c : Char) : Bool := s.data.contains c

/-- JavaScript `String.prototype.startsWith`, over the underlying character
lists. -/
def strStartsWith (s pre : String) : Bool := pre.data.isPrefixOf s.data

/-- JavaScript `String.prototype.trim`: strip leading and trailing
whitespace. -/
def jsTrim (s : String) : String :=
  String.mk (((s.data.dropWhile Char.isWhitespace).reverse.dropWhile
    Char.isWhitespace).reverse)

/-- JavaScript `rawPath.split('?', 2)`: the part before the first `?` and the
part between the first and second `?` (the limit-2 split truncates there). -/
def splitQ2 (s : String) : String × String :=
  let cs := s.data
  let p := cs.takeWhile (fun c => c ≠ '?')
  let rest := (cs.dropWhile (fun c => c ≠ '?')).drop 1
  (String.mk p, String.mk (rest.takeWhile (fun c => c ≠ '?')))

/-- Source lines 494-504: split the raw path into `basePath` and the initial
`searchParams`; an empty path-only part falls back to `/`, an absent or empty
query string leaves the params empty. -/
def pathSplit (rawPath : String) : String × SearchParams :=
  if containsChar rawPath '?' then
    let pq := splitQ2 rawPath
    let basePath := if pq.1 = "" then "/" else pq.1
    let sp := if pq.2 = "" then [] else newURLSearchParams pq.2
    (basePath, sp)
  else (rawPath, [])

/-- Source lines 511-519: merge the explicit query-collection entries into the
params with `set`; entries with a falsy (empty) name are skipped. -/
def mergeQuery (sp : SearchParams) (ps : List QueryParam) : SearchParams :=
  ps.foldl (fun l p => if p.name = "" then l else spSet l (utf8 p.name) (utf8 p.value)) sp

/-- Source lines 521-525: the final path with query — `basePath?query` when
the serialized merged query is nonempty, else `basePath` alone. -/
def pathWithQueryOf (rawPath : String) (ps : List QueryParam) : String :=
  let bq := pathSplit rawPath
  let q := spToString (mergeQuery bq.2 ps)
  if q.length > 0 then bq.1 ++ "?" ++ q else bq.1

/-- The path-with-query signed (and transmitted) for an item. -/
def signedPathOf (it : ItemInput) : String := pathWithQueryOf it.rawPath it.queryParams

/-- The signature computed for an item (source lines 539-545). -/
def signatureOf (it : ItemInput) (c : Credentials) : String :=
  createNcpSignature it.method (signedPathOf it) (tsOf it) c.accessKey c.secretKey

/-- The request descriptor of source lines 547-567: the three NCP headers and
`Content-Type`, the URL `baseUrl + pathWithQuery`, `json: true`, no `qs`,
and the optional parsed body. -/
def requestOf (it : ItemInput) (c : Credentials) (body : Option JsonVal) : RequestOptions :=
  { method := it.method
    url := effBaseUrl it ++ signedPathOf it
    xNcpApigwTimestamp := tsOf it
    xNcpIamAccessKey := c.accessKey
    xNcpApigwSignatureV2 := signatureOf it c
    contentType := "application/json"
    qs := []
    json := true
    body := body }

/-- Source lines 561-567: when `sendBody` is set, a blank body string yields
`{}` and anything else goes through `JSON.parse`, whose failure is thrown. -/
def bodyResultOf (jsonParse : String → Except String JsonVal) (it : ItemInput) :
    Except ItemError (Option JsonVal) :=
  if it.sendBody then
    if jsTrim it.bodyJson = "" then .ok (some (JsonVal.obj []))
    else
      match jsonParse it.bodyJson with
      | .ok v => .ok (some v)
      | .error m => .error (.jsonParse m)
  else .ok none

/-- Observable steps of one loop iteration: computing a signature over a path,
and dispatching a request. -/
inductive Ev where
  | signed (pathWithQuery : String) (signature : String)
  | dispatched (req : RequestOptions)

/-- The loop body of `NcpApi.execute` (source lines 470-577) for one item,
with its event trace: base-URL check, path validation, path/query merge,
credentials, timestamp and signature, request construction with optional
body, then dispatch, answering the transport's outcome. -/
def executeItemT (jsonParse : String → Except String JsonVal) (it : ItemInput) :
    Except ItemError JsonVal × List Ev :=
  if effBaseUrl it = "" then
    (.error (.nodeApi "Base URL is required"), [])
  else if it.rawPath == "" || !(strStartsWith it.rawPath "/") then
    (.error (.nodeApi "Path must start with \"/\""), [])
  else
    match it.credentials with
    | .error m => (.error (.host m), [])
    | .ok c =>
        match bodyResultOf jsonParse it with
        | .error e => (.error e, [Ev.signed (signedPathOf it) (signatureOf it c)])
        | .ok body =>
            match it.transportResult with
            | .error m =>
                (.error (.host m),
                 [Ev.signed (signedPathOf it) (signatureOf it c),
                  Ev.dispatched (requestOf it c body)])
            | .ok v =>
                (.ok v,
                 [Ev.signed (signedPathOf it) (signatureOf it c),
                  Ev.dispatched (requestOf it c body)])

/-- The item loop of `NcpApi.execute` (source lines 470-577): successful item
responses accumulate; the first failure is wrapped in a `NodeApiError` and
rethrown, abandoning both the accumulated results and the remaining items. -/
def executeGo (jsonParse : String → Except String JsonVal) :
    List ItemInput → List JsonVal → List Ev →
    Except NodeApiErrorW (List JsonVal) × List Ev
  | [], acc, evs => (.ok acc, evs)
  | it :: rest, acc, evs =>
      match executeItemT jsonParse it with
      | (.ok v, evsI) => executeGo jsonParse rest (acc ++ [v]) (evs ++ evsI)
      | (.error e, evsI) => (.error ⟨e⟩, evs ++ evsI)

/-- `NcpApi.execute` over the input items. -/
def executeT (jsonParse : String → Except String JsonVal) (items : List ItemInput) :
    Except NodeApiErrorW (List JsonVal) × List Ev :=
  executeGo jsonParse items [] []


/-!
Concrete inputs used to instantiate the theorems below, and the
specification's notion of a valid signing input.
-/

/-- A valid `SigningInput` as the specification's data model describes it:
the path begins with `/` and the timestamp is a string of decimal digits
(the method is already confined to the enumerated type and the access key
is an opaque string). -/
abbrev ValidSigningInput (pathWithQuery timestamp : String) : Prop :=
  strStartsWith pathWithQuery "/" = true ∧ ∀ d ∈ timestamp.data, d.isDigit = true

/-- A concrete successful item: the merge-precedence path and query of the
specification's scenario, fixed credentials and clock, transport answering
`null`. -/
def sampleItem : ItemInput :=
  { baseUrlParam := "https://ncloud.apigw.ntruss.com"
    customBaseUrl := ""
    rawPath := "/a?x=1"
    method := .GET
    queryParams := [⟨"x", "2"⟩, ⟨"y", "3"⟩]
    sendBody := false
    bodyJson := "{}"
    credentials := .ok ⟨"AK", "SK"⟩
    now := 1700000000000
    transportResult := .ok .null }

/-- A concrete `JSON.parse` stand-in. -/
def sampleJsonParse : String → Except String JsonVal := fun _ => .ok .null

/-- The signature `sampleItem` produces (checked below by evaluation). -/
def sampleSig : String := "XZtaCZQ5O7IXixtFrUVGcwNXdx/zN5Zo27OXzOnK0os="

/-- The request descriptor `sampleItem` produces. -/
def sampleReq : RequestOptions := requestOf sampleItem ⟨"AK", "SK"⟩ none

/-- `sampleItem` with an empty path parameter: a validation failure. -/
def emptyPathItem : ItemInput :=
  { sampleItem with rawPath := "" }

/-- `sampleItem` with a bare path and an explicit collection whose only
entry has an empty name. -/
def bareItem : ItemInput :=
  { sampleItem with rawPath := "/bare", queryParams := [⟨"", "zzz"⟩] }

/- Published test vectors anchoring the reference primitives. -/

/-- FIPS 180-4 vector: SHA-256 of the empty message. -/
theorem sha256_empty_vector :
    base64Encode (sha256 []) = "47DEQpj8HBSa+/TImW+5JCeuQeRkm5NMpJWZG3hSuFU=" := by decide

/-- FIPS 180-4 vector: SHA-256 of "abc". -/
theorem sha256_abc_vector :
    base64Encode (sha256 (utf8 "abc")) = "ungWv48Bz+pBQUDeXa4iI7ADYaOWF3qctBD/YfIAFa0=" := by
  decide

/-- RFC 4231 test case 2: HMAC-SHA256 with key "Jefe". -/
theorem hmac_jefe_vector :
    base64Encode (hmacSha256 (utf8 "Jefe") (utf8 "what do ya want for nothing?")) =
      "W9zBRr9gdU5qBCQmCJV1x1oAPwidJzmDnexYuWTsOEM=" := by decide

/-- RFC 4231 test case 6: HMAC-SHA256 with a 131-byte key, exercising the
hash-the-key branch. -/
theorem hmac_longkey_vector :
    base64Encode (hmacSha256 (List.replicate 131 170)
        (utf8 "Test Using Larger Than Block-Size Key - Hash Key First")) =
      "YOQxWR7gtn8Niiaqy/W3f44LxiE3KMUUBUYEDw7jf1Q=" := by decide

/-- RFC 4648 base64 vectors. -/
theorem base64_rfc4648_vectors :
    base64Encode (utf8 "") = "" ∧ base64Encode (utf8 "f") = "Zg==" ∧
    base64Encode (utf8 "fo") = "Zm8=" ∧ base64Encode (utf8 "foo") = "Zm9v" ∧
    base64Encode (utf8 "foob") = "Zm9vYg==" ∧ base64Encode (utf8 "fooba") = "Zm9vYmE=" ∧
    base64Encode (utf8 "foobar") = "Zm9vYmFy" := by decide

/-- C1: for every method, path, timestamp, access key and secret key,
`createNcpSignature` returns the standard base64 encoding (with padding) of
the HMAC-SHA256 digest, keyed with the UTF-8 bytes of the secret key, of the
UTF-8 bytes of the canonical message `METHOD` + space + path + 0x0A +
timestamp + 0x0A + accessKey with no trailing newline; anchored on the
specification's known-vector scenario. -/
theorem c1_createNcpSignature_matches_spec :
    (∀ (m : HttpMethod) (p t a s : String),
        createNcpSignature m p t a s = specSignature m p t a s) ∧
    createNcpSignature .GET "/server/v2/getServerInstanceList" "1700000000000"
        "AK123" "SK456" = "DKvR1Qohyi44v8aE4xNfZEw4Yp4p7h21yKjVZCo6PBU=" := by
  constructor
  · intro m p t a s
    rfl
  · decide

/-- C6: `createNcpSignature` is deterministic and side-effect free: equal
inputs give equal signatures, the result does not depend on the ambient
world, and the world is returned unchanged. -/
theorem c6_createNcpSignature_deterministic_pure :
    (∀ (w₁ w₂ : World) (m : HttpMethod) (p t a s : String),
        (createNcpSignatureW w₁ m p t a s).1 = (createNcpSignatureW w₂ m p t a s).1) ∧
    (∀ (w : World) (m : HttpMethod) (p t a s : String),
        (createNcpSignatureW w m p t a s).2 = w) ∧
    (∀ (m m' : HttpMethod) (p p' t t' a a' s s' : String),
        m = m' → p = p' → t = t' → a = a' → s = s' →
        createNcpSignature m p t a s = createNcpSignature m' p' t' a' s') := by
  refine ⟨fun _ _ _ _ _ _ _ => rfl, fun _ _ _ _ _ _ => rfl, ?_⟩
  intro m m' p p' t t' a a' s s' hm hp ht ha hs
  rw [hm, hp, ht, ha, hs]

/-- Closed instance of C6's determinism clause at a concrete input. -/
theorem c6_createNcpSignature_deterministic_pure_witness :
    createNcpSignature .GET "/a" "1700000000000" "AK" "SK" =
      createNcpSignature .GET "/a" "1700000000000" "AK" "SK" :=
  c6_createNcpSignature_deterministic_pure.2.2 .GET .GET "/a" "/a"
    "1700000000000" "1700000000000" "AK" "AK" "SK" "SK" rfl rfl rfl rfl rfl

/-- The signature of the sample item, computed through the whole item model
by kernel evaluation. -/
theorem sample_signature_value :
    signatureOf sampleItem ⟨"AK", "SK"⟩ = sampleSig := by decide

/-- Splitting a list at a separator absent from both prefixes is unique. -/
theorem sep_split {c : Char} :
    ∀ (xs ys as bs : List Char), c ∉ xs → c ∉ ys →
      xs ++ c :: as = ys ++ c :: bs → xs = ys ∧ as = bs := by
  intro xs
  induction xs with
  | nil =>
      intro ys as bs _hxs hys h
      cases ys with
      | nil =>
          simp only [List.nil_append, List.cons.injEq] at h
          exact ⟨rfl, h.2⟩
      | cons y ys2 =>
          simp only [List.nil_append, List.cons_append, List.cons.injEq] at h
          rcases h with ⟨h1, _⟩
          subst h1
          exact absurd (List.mem_cons_self _ _) hys
  | cons x xs2 ih =>
      intro ys as bs hxs hys h
      cases ys with
      | nil =>
          simp only [List.cons_append, List.nil_append, List.cons.injEq] at h
          rcases h with ⟨h1, _⟩
          subst h1
          exact absurd (List.mem_cons_self _ _) hxs
      | cons y ys2 =>
          simp only [List.cons_append, List.cons.injEq] at h
          rcases h with ⟨h1, h2⟩
          subst h1
          have hxs2 : c ∉ xs2 := fun hm => hxs (List.mem_cons_of_mem _ hm)
          have hys2 : c ∉ ys2 := fun hm => hys (List.mem_cons_of_mem _ hm)
          obtain ⟨e1, e2⟩ := ih ys2 as bs hxs2 hys2 h2
          exact ⟨by rw [e1], e2⟩

/-- The character list underlying the canonical message. -/
theorem canonicalMessage_data (m : HttpMethod) (p t a : String) :
    (canonicalMessage m p t a).data =
      (methodStr m).data ++ ' ' :: (p.data ++ '\n' :: (t.data ++ '\n' :: a.data)) := by
  simp only [canonicalMessage, String.data_append, List.append_assoc,
    show (" " : String).data = [' '] from rfl,
    show ("\n" : String).data = ['\n'] from rfl,
    List.singleton_append, List.cons_append, List.nil_append]

/-- No method string contains a space or a newline. -/
theorem methodStr_no_sep (m : HttpMethod) :
    ' ' ∉ (methodStr m).data ∧ '\n' ∉ (methodStr m).data := by
  cases m <;> decide

/-- The method is recoverable from its string. -/
theorem methodStr_inj (m m' : HttpMethod) (h : methodStr m = methodStr m') : m = m' := by
  cases m <;> cases m' <;> first
    | rfl
    | exact absurd h (by decide)

/-- C7 counterexample: two distinct valid signing inputs (the first path
contains newlines, which the validity notion does not exclude) build the
same canonical message, so the construction is not invertible on all valid
inputs. -/
theorem c7_canonicalMessage_not_injective :
    ValidSigningInput "/a\n1\nB" "170" ∧ ValidSigningInput "/a" "1" ∧
    canonicalMessage .GET "/a\n1\nB" "170" "AK" =
      canonicalMessage .GET "/a" "1" "B\n170\nAK" ∧
    ("/a\n1\nB" : String) ≠ "/a" := by
  refine ⟨by decide, by decide, by decide, by decide⟩

/-- C7 (amended): the canonical message equals exactly the template
`method`, space, path, newline, timestamp, newline, access key, and on
valid inputs whose path contains no newline the construction is invertible:
equal messages come from equal inputs. -/
theorem c7_canonicalMessage_invertible :
    (∀ (m : HttpMethod) (p t a : String),
        canonicalMessage m p t a = specCanonicalMessage m p t a) ∧
    (∀ (m m' : HttpMethod) (p p' t t' a a' : String),
        ValidSigningInput p t → ValidSigningInput p' t' →
        '\n' ∉ p.data → '\n' ∉ p'.data →
        canonicalMessage m p t a = canonicalMessage m' p' t' a' →
        m = m' ∧ p = p' ∧ t = t' ∧ a = a') := by
  refine ⟨fun m p t a => rfl, ?_⟩
  intro m m' p p' t t' a a' hv hv' hp hp' h
  have hd := congrArg String.data h
  rw [canonicalMessage_data, canonicalMessage_data] at hd
  have regroup : ∀ (M P R : List Char),
      M ++ ' ' :: (P ++ '\n' :: R) = (M ++ ' ' :: P) ++ '\n' :: R := by
    intro M P R
    simp
  rw [regroup, regroup] at hd
  have hline : ∀ (mm : HttpMethod) (pp : String), '\n' ∉ pp.data →
      '\n' ∉ (methodStr mm).data ++ ' ' :: pp.data := by
    intro mm pp hpp hmem
    rcases List.mem_append.mp hmem with hA | hB
    · exact (methodStr_no_sep mm).2 hA
    · rcases List.mem_cons.mp hB with hC | hD
      · exact absurd hC (by decide)
      · exact hpp hD
  obtain ⟨h1, h2⟩ := sep_split _ _ _ _ (hline m p hp) (hline m' p' hp') hd
  obtain ⟨hM, hP⟩ := sep_split _ _ _ _ (methodStr_no_sep m).1 (methodStr_no_sep m').1 h1
  have hnt : '\n' ∉ t.data := fun hm => absurd (hv.2 '\n' hm) (by decide)
  have hnt' : '\n' ∉ t'.data := fun hm => absurd (hv'.2 '\n' hm) (by decide)
  obtain ⟨hT, hA⟩ := sep_split _ _ _ _ hnt hnt' h2
  exact ⟨methodStr_inj m m' (String.ext hM), String.ext hP, String.ext hT, String.ext hA⟩

/-- Closed instance of C7's invertibility clause at a concrete valid input. -/
theorem c7_canonicalMessage_invertible_witness :
    HttpMethod.GET = HttpMethod.GET ∧ ("/a" : String) = "/a" ∧
    ("170" : String) = "170" ∧ ("AK" : String) = "AK" :=
  c7_canonicalMessage_invertible.2 .GET .GET "/a" "/a" "170" "170" "AK" "AK"
    (by decide) (by decide) (by decide) (by decide) rfl

/-- C2: in any item run, whenever a signature was computed over a path and a
request was dispatched, the dispatched URL is exactly the base URL followed
by the signed path, the dispatched signature header is the computed
signature, and no query parameters travel outside the URL string. -/
theorem c2_signed_path_equals_transmitted (jp : String → Except String JsonVal)
    (it : ItemInput) (r : Except ItemError JsonVal) (evs : List Ev)
    (pw sig : String) (req : RequestOptions)
    (hrun : executeItemT jp it = (r, evs))
    (hs : Ev.signed pw sig ∈ evs) (hd : Ev.dispatched req ∈ evs) :
    req.url = effBaseUrl it ++ pw ∧ req.xNcpApigwSignatureV2 = sig ∧ req.qs = [] := by
  unfold executeItemT at hrun
  split at hrun
  · cases hrun
    simp at hs
  · split at hrun
    · cases hrun
      simp at hs
    · rcases hcc : it.credentials with msg | c
      · simp only [hcc] at hrun
        cases hrun
        simp at hs
      · simp only [hcc] at hrun
        rcases hbr : bodyResultOf jp it with e | body
        · simp only [hbr] at hrun
          cases hrun
          simp at hd
        · simp only [hbr] at hrun
          rcases htr : it.transportResult with msg | v
          · simp only [htr] at hrun
            cases hrun
            simp at hs hd
            rw [hd, hs.1, hs.2]
            exact ⟨rfl, rfl, rfl⟩
          · simp only [htr] at hrun
            cases hrun
            simp at hs hd
            rw [hd, hs.1, hs.2]
            exact ⟨rfl, rfl, rfl⟩

/-- Closed instance of C2 on the sample item. -/
theorem c2_signed_path_equals_transmitted_witness :
    sampleReq.url = effBaseUrl sampleItem ++ signedPathOf sampleItem ∧
    sampleReq.xNcpApigwSignatureV2 = signatureOf sampleItem ⟨"AK", "SK"⟩ ∧
    sampleReq.qs = [] :=
  c2_signed_path_equals_transmitted sampleJsonParse sampleItem (.ok .null)
    [Ev.signed (signedPathOf sampleItem) (signatureOf sampleItem ⟨"AK", "SK"⟩),
     Ev.dispatched sampleReq]
    (signedPathOf sampleItem) (signatureOf sampleItem ⟨"AK", "SK"⟩) sampleReq
    rfl (by simp) (by simp)

/-- C5: whenever an item's request is dispatched, its timestamp header and
access-key header are exactly the timestamp and access key that went into
the signed canonical message, whose signature is the signature header. -/
theorem c5_headers_match_signed_inputs (jp : String → Except String JsonVal)
    (it : ItemInput) (c : Credentials) (r : Except ItemError JsonVal)
    (evs : List Ev) (req : RequestOptions)
    (hrun : executeItemT jp it = (r, evs))
    (hc : it.credentials = .ok c) (hd : Ev.dispatched req ∈ evs) :
    req.xNcpApigwTimestamp = tsOf it ∧ req.xNcpIamAccessKey = c.accessKey ∧
    req.xNcpApigwSignatureV2 =
      createNcpSignature it.method (signedPathOf it) (tsOf it) c.accessKey c.secretKey := by
  unfold executeItemT at hrun
  split at hrun
  · cases hrun
    simp at hd
  · split at hrun
    · cases hrun
      simp at hd
    · simp only [hc] at hrun
      rcases hbr : bodyResultOf jp it with e | body
      · simp only [hbr] at hrun
        cases hrun
        simp at hd
      · simp only [hbr] at hrun
        rcases htr : it.transportResult with msg | v
        · simp only [htr] at hrun
          cases hrun
          simp at hd
          rw [hd]
          exact ⟨rfl, rfl, rfl⟩
        · simp only [htr] at hrun
          cases hrun
          simp at hd
          rw [hd]
          exact ⟨rfl, rfl, rfl⟩

/-- Closed instance of C5 on the sample item. -/
theorem c5_headers_match_signed_inputs_witness :
    sampleReq.xNcpApigwTimestamp = tsOf sampleItem ∧
    sampleReq.xNcpIamAccessKey = (Credentials.mk "AK" "SK").accessKey ∧
    sampleReq.xNcpApigwSignatureV2 =
      createNcpSignature sampleItem.method (signedPathOf sampleItem) (tsOf sampleItem)
        (Credentials.mk "AK" "SK").accessKey (Credentials.mk "AK" "SK").secretKey :=
  c5_headers_match_signed_inputs sampleJsonParse sampleItem ⟨"AK", "SK"⟩ (.ok .null)
    [Ev.signed (signedPathOf sampleItem) (signatureOf sampleItem ⟨"AK", "SK"⟩),
     Ev.dispatched sampleReq] sampleReq
    rfl rfl (by simp)

/-- C4: an item whose path parameter is empty or does not start with `/`
fails with a validation error and an empty event trace — so no signature is
ever computed and no request dispatched for it; when the base URL is
present the error is precisely the path-validation error. -/
theorem c4_invalid_path_fails_before_signing (jp : String → Except String JsonVal)
    (it : ItemInput)
    (h : it.rawPath = "" ∨ strStartsWith it.rawPath "/" = false) :
    (∃ msg, executeItemT jp it = (.error (.nodeApi msg), [])) ∧
    (effBaseUrl it ≠ "" →
        executeItemT jp it = (.error (.nodeApi "Path must start with \"/\""), [])) := by
  have hcond : (it.rawPath == "" || !strStartsWith it.rawPath "/") = true := by
    rcases h with h | h
    · simp [h]
    · simp [h]
  by_cases hb : effBaseUrl it = ""
  · refine ⟨⟨"Base URL is required", ?_⟩, fun hne => absurd hb hne⟩
    unfold executeItemT
    rw [if_pos hb]
  · have hrun : executeItemT jp it =
        (.error (.nodeApi "Path must start with \"/\""), []) := by
      unfold executeItemT
      rw [if_neg hb, if_pos hcond]
    exact ⟨⟨_, hrun⟩, fun _ => hrun⟩

/-- Closed instance of C4 on the empty-path item. -/
theorem c4_invalid_path_fails_before_signing_witness :
    (∃ msg, executeItemT sampleJsonParse emptyPathItem = (.error (.nodeApi msg), [])) ∧
    (effBaseUrl emptyPathItem ≠ "" →
        executeItemT sampleJsonParse emptyPathItem =
          (.error (.nodeApi "Path must start with \"/\""), [])) :=
  c4_invalid_path_fails_before_signing sampleJsonParse emptyPathItem (Or.inl rfl)

/-- `URLSearchParams.set` makes the first entry with the set name carry the
new value. -/
theorem spSet_lookup (l : SearchParams) (n v : List Nat) :
    List.lookup n (spSet l n v) = some v := by
  induction l with
  | nil => simp [spSet, List.lookup]
  | cons e rest ih =>
      obtain ⟨k0, w0⟩ := e
      by_cases he : k0 = n
      · subst he
        simp [spSet, List.lookup]
      · have hne : (n == k0) = false := beq_eq_false_iff_ne.mpr (fun hh => he hh.symm)
        simp [spSet, he, List.lookup, hne, ih]

/-- `URLSearchParams.set` leaves the entries of every other name, and their
order, untouched. -/
theorem spSet_filter_other (l : SearchParams) (n v k : List Nat) (hkn : k ≠ n) :
    (spSet l n v).filter (fun e => e.1 == k) = l.filter (fun e => e.1 == k) := by
  have hnk : (n == k) = false := beq_eq_false_iff_ne.mpr (fun hh => hkn hh.symm)
  induction l with
  | nil => simp [spSet, List.filter_cons, hnk]
  | cons e rest ih =>
      obtain ⟨k0, w0⟩ := e
      by_cases he : k0 = n
      · subst he
        have h1 : spSet ((k0, w0) :: rest) k0 v = (k0, v) :: spRemove rest k0 := by
          simp [spSet]
        rw [h1]
        simp only [spRemove, List.filter_cons, List.filter_filter, hnk, Bool.false_eq_true,
          if_false]
        refine List.filter_congr ?_
        intro a _
        cases hak : (a.1 == k)
        · simp [hak]
        · have hh1 : a.1 = k := eq_of_beq hak
          have hh2 : (a.1 == k0) = false := by
            rw [hh1]
            exact beq_eq_false_iff_ne.mpr hkn
          simp [hak, hh2]
      · have h1 : spSet ((k0, w0) :: rest) n v = (k0, w0) :: spSet rest n v := by
          simp [spSet, he]
        rw [h1, List.filter_cons, List.filter_cons]
        cases hk0 : (((k0, w0) : List Nat × List Nat).1 == k) <;> simp [hk0, ih]

/-- `URLSearchParams.set` appends a name that is not yet present. -/
theorem spSet_append_new (l : SearchParams) (n v : List Nat)
    (hn : n ∉ l.map Prod.fst) : spSet l n v = l ++ [(n, v)] := by
  induction l with
  | nil => rfl
  | cons e rest ih =>
      obtain ⟨k0, w0⟩ := e
      simp only [List.map_cons, List.mem_cons] at hn
      push_neg at hn
      have h1 : ¬(k0 = n) := fun hh => hn.1 (hh ▸ rfl)
      simp [spSet, h1, ih hn.2]

/-- One step of the explicit-entry merge loop. -/
theorem mergeQuery_cons (sp : SearchParams) (q : QueryParam) (rest : List QueryParam) :
    mergeQuery sp (q :: rest) =
      mergeQuery (if q.name = "" then sp else spSet sp (utf8 q.name) (utf8 q.value)) rest := rfl

/-- A collection whose entries all have empty names merges to nothing. -/
theorem mergeQuery_all_empty :
    ∀ (ps : List QueryParam), (∀ p ∈ ps, p.name = "") →
      ∀ sp : SearchParams, mergeQuery sp ps = sp := by
  intro ps
  induction ps with
  | nil =>
      intro _ sp
      rfl
  | cons q rest ih =>
      intro hall sp
      have hq0 : q.name = "" := hall q (List.mem_cons_self _ _)
      rw [mergeQuery_cons, if_pos hq0]
      exact ih (fun p hp2 => hall p (List.mem_cons_of_mem _ hp2)) sp

/-- C3: on the specification's merge-precedence scenario the final signed and
transmitted path is exactly `/a?x=2&y=3`; in general an explicit entry's
value becomes the first value of its name, entries of every other name keep
their occurrences and order, and a new name is appended at the end. -/
theorem c3_merge_precedence :
    pathWithQueryOf "/a?x=1" [⟨"x", "2"⟩, ⟨"y", "3"⟩] = "/a?x=2&y=3" ∧
    (∀ (l : SearchParams) (n v : List Nat), List.lookup n (spSet l n v) = some v) ∧
    (∀ (l : SearchParams) (n v k : List Nat), k ≠ n →
        (spSet l n v).filter (fun e => e.1 == k) = l.filter (fun e => e.1 == k)) ∧
    (∀ (l : SearchParams) (n v : List Nat), n ∉ l.map Prod.fst →
        spSet l n v = l ++ [(n, v)]) :=
  ⟨by decide, spSet_lookup, spSet_filter_other, spSet_append_new⟩

/-- Closed instance of C3's override and append clauses ("x" is byte 120,
"y" is byte 121). -/
theorem c3_merge_precedence_witness :
    (spSet [([120], [49])] [120] [50]).filter (fun e => e.1 == [121]) =
      [([120], [49])].filter (fun e => e.1 == [121]) ∧
    spSet [([120], [49])] [121] [51] = [([120], [49])] ++ [([121], [51])] :=
  ⟨c3_merge_precedence.2.2.1 [([120], [49])] [120] [50] [121] (by decide),
   c3_merge_precedence.2.2.2 [([120], [49])] [121] [51] (by decide)⟩

/-- C8: an item whose path has no query string and whose explicit collection
contributes no parameters signs the bare path itself — no trailing `?`. -/
theorem c8_bare_path_unchanged (it : ItemInput)
    (hq : containsChar it.rawPath '?' = false)
    (hp : ∀ p ∈ it.queryParams, p.name = "") :
    signedPathOf it = it.rawPath := by
  have hsplit : pathSplit it.rawPath = (it.rawPath, []) := by
    unfold pathSplit
    rw [hq]
    simp
  simp only [signedPathOf, pathWithQueryOf, hsplit, mergeQuery_all_empty it.queryParams hp]
  simp [spToString, String.intercalate]

/-- Closed instance of C8 on the bare-path item. -/
theorem c8_bare_path_unchanged_witness :
    signedPathOf bareItem = bareItem.rawPath :=
  c8_bare_path_unchanged bareItem (by decide) (by decide)

/-- C9: an explicit query-collection entry whose name is the empty string is
skipped: the signed and transmitted path is the same as if the entry were
absent, whatever its value. -/
theorem c9_empty_name_skipped (rawPath : String) (ps1 ps2 : List QueryParam) (v : String) :
    pathWithQueryOf rawPath (ps1 ++ ⟨"", v⟩ :: ps2) = pathWithQueryOf rawPath (ps1 ++ ps2) := by
  have hm : ∀ sp : SearchParams,
      mergeQuery sp (ps1 ++ ⟨"", v⟩ :: ps2) = mergeQuery sp (ps1 ++ ps2) := by
    intro sp
    unfold mergeQuery
    rw [List.foldl_append, List.foldl_append, List.foldl_cons]
    simp
  simp only [pathWithQueryOf, hm]

/-- The item loop stops at the first failing item: everything before the
failure is answered, everything after is ignored. -/
theorem executeGo_failfast (jp : String → Except String JsonVal)
    (post : List ItemInput) (bad : ItemInput) (e : ItemError)
    (hbad : (executeItemT jp bad).1 = .error e) :
    ∀ (pre : List ItemInput),
      (∀ it ∈ pre, ∃ v evsI, executeItemT jp it = (.ok v, evsI)) →
      ∀ (acc : List JsonVal) (evs : List Ev),
        (executeGo jp (pre ++ bad :: post) acc evs).1 = .error ⟨e⟩ ∧
        executeGo jp (pre ++ bad :: post) acc evs = executeGo jp (pre ++ [bad]) acc evs := by
  intro pre
  induction pre with
  | nil =>
      intro _ acc evs
      simp only [List.nil_append]
      rcases hb : executeItemT jp bad with ⟨r, evsB⟩
      rw [hb] at hbad
      simp only at hbad
      subst hbad
      constructor
      · simp [executeGo, hb]
      · simp [executeGo, hb]
  | cons it0 rest ih =>
      intro hall acc evs
      obtain ⟨v, evsI, hit⟩ := hall it0 (List.mem_cons_self _ _)
      have htail : ∀ it ∈ rest, ∃ v evsI, executeItemT jp it = (.ok v, evsI) :=
        fun it hm => hall it (List.mem_cons_of_mem _ hm)
      simp only [List.cons_append, executeGo, hit]
      exact ih htail (acc ++ [v]) (evs ++ evsI)

/-- C10: if an item fails — by validation, credentials, body parsing or
transport — `execute` rethrows the failure wrapped in a `NodeApiError`, so
no output items at all are returned (the earlier successes included), and
the items after the failing one are never processed: the whole run equals
the run that stops at the failing item. -/
theorem c10_execute_fail_stop (jp : String → Except String JsonVal)
    (pre post : List ItemInput) (bad : ItemInput) (e : ItemError)
    (hpre : ∀ it ∈ pre, ∃ v evsI, executeItemT jp it = (.ok v, evsI))
    (hbad : (executeItemT jp bad).1 = .error e) :
    (executeT jp (pre ++ bad :: post)).1 = .error ⟨e⟩ ∧
    executeT jp (pre ++ bad :: post) = executeT jp (pre ++ [bad]) :=
  executeGo_failfast jp post bad e hbad pre hpre [] []

/-- Closed instance of C10: an empty-path item aborts the run, and the item
after it is never reached. -/
theorem c10_execute_fail_stop_witness :
    (executeT sampleJsonParse ([] ++ emptyPathItem :: [sampleItem])).1 =
        .error ⟨.nodeApi "Path must start with \"/\""⟩ ∧
    executeT sampleJsonParse ([] ++ emptyPathItem :: [sampleItem]) =
      executeT sampleJsonParse ([] ++ [emptyPathItem]) :=
  c10_execute_fail_stop sampleJsonParse [] [sampleItem] emptyPathItem
    (.nodeApi "Path must start with \"/\"") (by simp) rfl

end NcpNode
